import Mathlib

/-!
# Verification of the client-side crypto core of the encrypted-files frontend

Shallow embedding of the TypeScript sources under src/src/lib (crypto and
upload orchestration), with theorems checking the specified properties.

Modelling conventions, used consistently below:

* Byte buffers (ArrayBuffer / Uint8Array / binary strings) are `List Nat`;
  well-formedness (every byte below 256) is carried as an explicit hypothesis
  where a source value is a genuine byte array.
* JavaScript strings are `List Char` (for base64 text) or `String`.
* The WebCrypto AES-GCM primitive is not part of the repository; it is
  modelled as an idealized AEAD: the ciphertext is the plaintext followed by a
  16-byte authentication tag that depends on key, nonce and plaintext, and
  decryption recomputes and checks the tag, returning `none` on mismatch.
  Only the functional properties the program relies on (round trip, tag
  checking, hard failure) are modelled, not the bit-level cipher.
* PBKDF2 and SHA-256 are likewise platform primitives; PBKDF2 is modelled as
  a deterministic injective function of (password bytes, salt bytes,
  iteration count), SHA-256 as a deterministic 32-byte digest.
* `TextEncoder.encode` is modelled as the (injective) code-point sequence of
  the string; `TextDecoder.decode` as the code-point-wise inverse, which is
  lossy on non-character values exactly as the real decoder is.
* Random values the source draws inside a function (generated file keys,
  IVs from generateIV, storage salts) are passed as explicit parameters.
* Functions that can throw return `Option` or `Except`; a try/catch in the
  source becomes a match on that result.
-/

namespace EncFiles

/-! ## Base64 (btoa / atob and the helpers in fileEncryption.ts) -/

/-- The standard base64 alphabet, in index order. -/
def b64Alphabet : List Char :=
  ['A', 'B', 'C', 'D', 'E', 'F', 'G', 'H', 'I', 'J', 'K', 'L', 'M',
   'N', 'O', 'P', 'Q', 'R', 'S', 'T', 'U', 'V', 'W', 'X', 'Y', 'Z',
   'a', 'b', 'c', 'd', 'e', 'f', 'g', 'h', 'i', 'j', 'k', 'l', 'm',
   'n', 'o', 'p', 'q', 'r', 's', 't', 'u', 'v', 'w', 'x', 'y', 'z',
   '0', '1', '2', '3', '4', '5', '6', '7', '8', '9', '+', '/']

/-- Character for a 6-bit value (indices are below 64 at every call site). -/
def b64CharOf (n : Nat) : Char := b64Alphabet.getD n 'A'

/-- Index of a base64 character, `none` for characters outside the alphabet. -/
def b64IndexOf (c : Char) : Option Nat := b64Alphabet.findIdx? (fun a => a = c)

/-- Membership in the base64 alphabet (the character class of the source
regex in base64ToUint8Array). -/
def isBase64Char (c : Char) : Bool := b64Alphabet.contains c

/-- ASCII whitespace, as stripped by the forgiving-base64 decode of atob. -/
def isAsciiWs (c : Char) : Bool :=
  c = ' ' || c = '\t' || c = '\n' || c = '\x0c' || c = '\r'

/-- Base64 encoding of a byte sequence, three bytes to four characters with
trailing padding; this is the behaviour of the btoa builtin on a binary
string of the given byte values. -/
def b64EncodeGroups : List Nat → List Char
  | [] => []
  | [a] => [b64CharOf (a / 4), b64CharOf (a % 4 * 16), '=', '=']
  | [a, b] => [b64CharOf (a / 4), b64CharOf (a % 4 * 16 + b / 16),
               b64CharOf (b % 16 * 4), '=']
  | a :: b :: c :: rest =>
      b64CharOf (a / 4) :: b64CharOf (a % 4 * 16 + b / 16) ::
      b64CharOf (b % 16 * 4 + c / 64) :: b64CharOf (c % 64) ::
      b64EncodeGroups rest

/-- Decode a final group of two characters (8 data bits, leftover bits
discarded, as forgiving-base64 does). -/
def b64DecodeTail2 (c1 c2 : Char) : Option (List Nat) := do
  let i1 ← b64IndexOf c1
  let i2 ← b64IndexOf c2
  some [i1 * 4 + i2 / 16]

/-- Decode a final group of three characters (16 data bits). -/
def b64DecodeTail3 (c1 c2 c3 : Char) : Option (List Nat) := do
  let i1 ← b64IndexOf c1
  let i2 ← b64IndexOf c2
  let i3 ← b64IndexOf c3
  some [i1 * 4 + i2 / 16, i2 % 16 * 16 + i3 / 4]

/-- Group-wise base64 decoding after whitespace removal: the forgiving-base64
algorithm behind the atob builtin.  Padding is accepted only at the very end,
a final group may also be unpadded (two or three characters), a leftover
single character or a misplaced padding character is an error. -/
def b64DecodeGroups : List Char → Option (List Nat)
  | [] => some []
  | [c1, c2] => b64DecodeTail2 c1 c2
  | [c1, c2, c3] => b64DecodeTail3 c1 c2 c3
  | c1 :: c2 :: c3 :: c4 :: rest =>
      if rest = [] ∧ c4 = '=' then
        if c3 = '=' then b64DecodeTail2 c1 c2 else b64DecodeTail3 c1 c2 c3
      else do
        let i1 ← b64IndexOf c1
        let i2 ← b64IndexOf c2
        let i3 ← b64IndexOf c3
        let i4 ← b64IndexOf c4
        let tl ← b64DecodeGroups rest
        some ((i1 * 4 + i2 / 16) :: (i2 % 16 * 16 + i3 / 4) :: (i3 % 4 * 64 + i4) :: tl)
  | [_] => none

/-- The btoa builtin on a byte-valued binary string. -/
def btoaFn : List Nat → List Char := b64EncodeGroups

/-- The atob builtin (forgiving base64: strip ASCII whitespace, then decode;
`none` models the thrown InvalidCharacterError). -/
def atobFn (s : List Char) : Option (List Nat) :=
  b64DecodeGroups (s.filter (fun c => !isAsciiWs c))

/-- String.prototype.trim restricted to ASCII whitespace (the only kind that
matters for base64 inputs). -/
def trimFn (s : List Char) : List Char :=
  ((s.dropWhile isAsciiWs).reverse.dropWhile isAsciiWs).reverse

/-- The validation regex of base64ToUint8Array:
matches strings of base64-alphabet characters followed by at most two
padding characters. -/
def base64RegexAccepts : List Char → Bool
  | [] => true
  | c :: rest =>
      if isBase64Char c then base64RegexAccepts rest
      else c == '=' && (rest == ([] : List Char) || rest == ['='])

/-- src/src/lib/crypto/fileEncryption.ts, base64ToUint8Array: reject a falsy
input (the empty string included), trim, validate against the regex, then
atob; every failure throws, modelled as `none`. -/
def base64ToUint8Array (base64 : List Char) : Option (List Nat) :=
  if base64 = [] then none
  else
    let cleanBase64 := trimFn base64
    if base64RegexAccepts cleanBase64 then atobFn cleanBase64 else none

/-- The chunking loop of arrayBufferToBase64: concatenate 0x8000-byte
windows of the buffer (building the binary string passed to btoa).  The
fuel argument bounds the number of iterations; it is instantiated with the
buffer length, which the loop never exceeds. -/
def chunkedJoin : Nat → List Nat → List Nat
  | 0, _ => []
  | _ + 1, [] => []
  | fuel + 1, bytes => bytes.take 0x8000 ++ chunkedJoin fuel (bytes.drop 0x8000)

/-- src/src/lib/crypto/fileEncryption.ts, arrayBufferToBase64: build the
binary string in 32 KiB chunks, then btoa the result. -/
def arrayBufferToBase64 (buffer : List Nat) : List Char :=
  btoaFn (chunkedJoin buffer.length buffer)

/-! ## Idealized AES-GCM (the WebCrypto primitive used throughout) -/

/-- Fold of bitwise xor over a byte list; ingredient of the modelled tag. -/
def xorSum (l : List Nat) : Nat := l.foldr (fun a b => a ^^^ b) 0

/-- Modelled 16-byte GCM authentication tag: depends on key, nonce and
plaintext, and changes whenever a single low-order bit of any of them is
flipped. -/
def gcmTag (key iv plaintext : List Nat) : List Nat :=
  List.replicate 16 ((xorSum key ^^^ xorSum iv ^^^ xorSum plaintext) % 256)

/-- crypto.subtle.encrypt with AES-GCM: ciphertext together with the tag. -/
def gcmEncrypt (key iv plaintext : List Nat) : List Nat :=
  plaintext ++ gcmTag key iv plaintext

/-- crypto.subtle.decrypt with AES-GCM: split off the trailing 16-byte tag,
recompute it, and fail (`none`, the thrown OperationError) on any mismatch. -/
def gcmDecrypt (key iv c : List Nat) : Option (List Nat) :=
  if 16 ≤ c.length then
    let p := c.take (c.length - 16)
    let t := c.drop (c.length - 16)
    if t = gcmTag key iv p then some p else none
  else none

/-- Flip bit `j` of byte `i` of a buffer. -/
def flipBit (l : List Nat) (i j : Nat) : List Nat :=
  l.set i (l.getD i 0 ^^^ 2 ^ j)

/-- src/src/lib/crypto/fileEncryption.ts, encryptChunk. -/
def encryptChunk (chunk key iv : List Nat) : List Nat := gcmEncrypt key iv chunk

/-- src/src/lib/crypto/fileEncryption.ts, decryptChunk. -/
def decryptChunk (encryptedChunk key iv : List Nat) : Option (List Nat) :=
  gcmDecrypt key iv encryptedChunk

/-! ## Key derivation (src/src/lib/crypto/keyDerivation.ts) -/

/-- TextEncoder.encode, modelled as the code-point sequence (injective, as
UTF-8 is). -/
def textEncode (s : String) : List Nat := s.toList.map Char.toNat

/-- TextDecoder.decode, the lossy code-point-wise inverse. -/
def textDecode (bs : List Nat) : List Char := bs.map Char.ofNat

/-- The PBKDF2-SHA-256 primitive of crypto.subtle.deriveKey, modelled as a
deterministic function that is injective in (password, salt) at a fixed
iteration count. -/
def pbkdf2Sha256 (password salt : List Nat) (iterations : Nat) : List Nat :=
  password.length :: password ++ salt ++ [iterations]

/-- src/src/lib/crypto/keyDerivation.ts, deriveKeyFromPassword: decode the
base64 salt with atob (the only step that can throw), then derive an
AES-256 key with PBKDF2, 100000 iterations of SHA-256. -/
def deriveKeyFromPassword (password : String) (salt : List Char) : Option (List Nat) :=
  (atobFn salt).map fun saltBuffer =>
    pbkdf2Sha256 (textEncode password) saltBuffer 100000

/-- The SHA-256 primitive of crypto.subtle.digest, modelled as a
deterministic 32-byte digest. -/
def sha256Digest (bs : List Nat) : List Nat :=
  (List.range 32).map fun i => (bs.sum + bs.length + i) % 256

/-- src/src/lib/crypto/keyDerivation.ts, hashPassword: SHA-256 of
password ++ salt (or of the password alone when no salt is supplied),
base64-encoded and truncated to its first 43 characters. -/
def hashPassword (password : String) (salt : Option String) : List Char :=
  match salt with
  | some s => (btoaFn (sha256Digest (textEncode (password ++ s)))).take 43
  | none => (btoaFn (sha256Digest (textEncode password))).take 43

/-! ## File encryption (src/src/lib/crypto/fileEncryption.ts) -/

/-- The EncryptedFile fields produced by encryptFile (base64 strings). -/
structure EncryptedFile where
  encryptedData : List Char
  encryptedKey : List Char
  iv : List Char
  salt : List Char
  size : Nat
deriving DecidableEq

/-- The DecryptedFileData record returned by decryptFile. -/
structure DecryptedFileData where
  data : List Nat
  filename : String
  mimeType : String
deriving DecidableEq

/-- src/src/lib/crypto/fileEncryption.ts, encryptFile: encrypt the file
bytes with a fresh file key and IV, wrap the exported file key with the
master key under a second IV, and base64 all four artifacts.  The random
file key and the two IVs the source draws from the platform RNG are passed
as parameters. -/
def encryptFile (fileData masterKey fileKey fileIV keyIV : List Nat) : EncryptedFile :=
  let encryptedFileData := gcmEncrypt fileKey fileIV fileData
  let exportedFileKey := fileKey
  let encryptedFileKey := gcmEncrypt masterKey keyIV exportedFileKey
  { encryptedData := arrayBufferToBase64 encryptedFileData
    encryptedKey := arrayBufferToBase64 encryptedFileKey
    iv := arrayBufferToBase64 fileIV
    salt := arrayBufferToBase64 keyIV
    size := fileData.length }

/-- src/src/lib/crypto/fileEncryption.ts, decryptFile: base64-decode the
four fields, unwrap the file key with the master key, import it, and
decrypt the file body with it; filename and MIME type are passed through. -/
def decryptFile (encryptedFile : EncryptedFile) (masterKey : List Nat)
    (filename mimeType : String) : Option DecryptedFileData := do
  let encryptedKeyBuffer ← base64ToUint8Array encryptedFile.encryptedKey
  let keyIV ← base64ToUint8Array encryptedFile.salt
  let encryptedDataBuffer ← base64ToUint8Array encryptedFile.encryptedData
  let fileIV ← base64ToUint8Array encryptedFile.iv
  let decryptedFileKeyBuffer ← gcmDecrypt masterKey keyIV encryptedKeyBuffer
  let fileKey := decryptedFileKeyBuffer
  let decryptedFileData ← gcmDecrypt fileKey fileIV encryptedDataBuffer
  some { data := decryptedFileData, filename := filename, mimeType := mimeType }

/-! ## Metadata encryption (src/src/lib/crypto/metadataEncryption.ts) -/

/-- The metadata record handled by decryptMetadata (the optional wrapped-key
fields play no role in the claims and are omitted). -/
structure MetadataRecord where
  filename : String
  size : Nat
  mimeType : String
deriving DecidableEq

/-- The fixed fallback record of the catch branch of decryptMetadata. -/
def defaultMetadata : MetadataRecord :=
  { filename := "Unknown File", size := 0, mimeType := "application/octet-stream" }

/-- JSON.parse of a serialized metadata record, modelled as the partial
inverse of an injective length-prefixed serialization: filename length,
filename bytes, size, MIME length, MIME bytes; anything else is malformed
and fails. -/
def parseMetadataJson : List Nat → Option MetadataRecord
  | fnLen :: rest =>
      if fnLen ≤ rest.length then
        match rest.drop fnLen with
        | size :: mtLen :: rest3 =>
            if mtLen = rest3.length then
              some { filename := String.mk (textDecode (rest.take fnLen))
                     size := size
                     mimeType := String.mk (textDecode rest3) }
            else none
        | _ => none
      else none
  | [] => none

/-- The try block of decryptMetadata: reject a falsy input, atob, split off
the 12-byte IV, AES-GCM decrypt under the master key, parse the JSON. -/
def decryptMetadataTry (encryptedMetadata : List Char) (masterKey : List Nat) :
    Option MetadataRecord :=
  if encryptedMetadata = [] then none
  else
    (atobFn encryptedMetadata).bind fun combined =>
      (gcmDecrypt masterKey (combined.take 12) (combined.drop 12)).bind
        fun decryptedBuffer => parseMetadataJson decryptedBuffer

/-- src/src/lib/crypto/metadataEncryption.ts, decryptMetadata: the whole
pipeline sits in a try/catch whose catch branch returns the fixed default
record. -/
def decryptMetadata (encryptedMetadata : List Char) (masterKey : List Nat) :
    MetadataRecord :=
  match decryptMetadataTry encryptedMetadata masterKey with
  | some record => record
  | none => defaultMetadata

/-- src/src/lib/crypto/metadataEncryption.ts, decryptFilename: atob, split
off the 12-byte IV, AES-GCM decrypt, decode the bytes; there is no catch,
so every failure propagates (`none`). -/
def decryptFilename (encryptedFilename : List Char) (masterKey : List Nat) :
    Option (List Char) :=
  (atobFn encryptedFilename).bind fun combined =>
    (gcmDecrypt masterKey (combined.take 12) (combined.drop 12)).map
      fun decryptedBuffer => textDecode decryptedBuffer

/-! ## Key vault (src/src/lib/crypto/keyStorage.ts) -/

/-- A stored vault record, as put into the IndexedDB object store. -/
structure VaultEntry where
  userId : String
  encryptedKey : List Char
  iv : List Char
  createdAt : Nat

/-- The keys object store, keyed by userId (db.put overwrites). -/
abbrev VaultDB : Type := String → Option VaultEntry

/-- src/src/lib/crypto/keyStorage.ts, storeMasterKey: export the master
key, derive a storage key from the session password with PBKDF2 (100000
iterations, fresh 16-byte salt), AES-GCM-encrypt the exported key under a
fresh 12-byte IV, and persist base64(salt ++ iv ++ ciphertext) keyed by
userId.  The random salt and IV are parameters; createdAt (Date.now) is
modelled as 0 since nothing reads it. -/
def storeMasterKey (db : VaultDB) (userId : String) (masterKey : List Nat)
    (sessionPassword : String) (salt iv : List Nat) : VaultDB :=
  let exportedKey := masterKey
  let storageKey := pbkdf2Sha256 (textEncode sessionPassword) salt 100000
  let encryptedKey := gcmEncrypt storageKey iv exportedKey
  let combined := salt ++ iv ++ encryptedKey
  fun u =>
    if u = userId then
      some { userId := userId, encryptedKey := btoaFn combined,
             iv := btoaFn iv, createdAt := 0 }
    else db u

/-- The try block of retrieveMasterKey: look the record up (a missing record
throws), atob, slice salt (0..16), iv (16..28) and ciphertext (28..), re-derive
the storage key, AES-GCM decrypt (a wrong secret throws), import the bytes. -/
def retrieveMasterKeyTry (db : VaultDB) (userId : String)
    (sessionPassword : String) : Option (List Nat) := do
  let keyData ← db userId
  let combined ← atobFn keyData.encryptedKey
  let salt := combined.take 16
  let iv := (combined.drop 16).take 12
  let encryptedKey := combined.drop 28
  let storageKey := pbkdf2Sha256 (textEncode sessionPassword) salt 100000
  let decryptedKeyBuffer ← gcmDecrypt storageKey iv encryptedKey
  some decryptedKeyBuffer

/-- src/src/lib/crypto/keyStorage.ts, retrieveMasterKey: the whole try block
sits in a catch that rethrows every failure as the single generic
Error with message Failed to retrieve master key. -/
def retrieveMasterKey (db : VaultDB) (userId : String)
    (sessionPassword : String) : Except String (List Nat) :=
  match retrieveMasterKeyTry db userId sessionPassword with
  | some masterKey => Except.ok masterKey
  | none => Except.error "Failed to retrieve master key"

/-! ## Upload orchestration (src/src/lib/hooks/useUpload.ts) -/

/-- A validated file queued for upload (only the name is observable in the
recorded errors). -/
structure UploadItem where
  name : String
deriving DecidableEq

/-- Aggregate result of the upload loop: the items actually handed to the
store upload (in order), the success count, and the recorded error
messages (in order). -/
structure UploadOutcome where
  attempted : List UploadItem
  uploadedCount : Nat
  errors : List String
deriving DecidableEq

/-- The per-item loop of uploadFiles in src/src/lib/hooks/useUpload.ts,
after validation: before item `i` the cooperative cancellation flag is
read (`cancelled i` is the value of uploadCancelRef at that check, and a
set flag breaks the loop); otherwise the item is uploaded, a success
increments uploadedCount, a failure appends `name: message` to the errors
and the loop continues with the remaining items. -/
def uploadFiles (upload : UploadItem → Except String Unit) (cancelled : Nat → Bool) :
    Nat → List UploadItem → UploadOutcome
  | _, [] => { attempted := [], uploadedCount := 0, errors := [] }
  | i, f :: rest =>
      if cancelled i then { attempted := [], uploadedCount := 0, errors := [] }
      else
        let tail := uploadFiles upload cancelled (i + 1) rest
        match upload f with
        | Except.ok _ =>
            { attempted := f :: tail.attempted
              uploadedCount := tail.uploadedCount + 1
              errors := tail.errors }
        | Except.error e =>
            { attempted := f :: tail.attempted
              uploadedCount := tail.uploadedCount
              errors := (f.name ++ ": " ++ e) :: tail.errors }

/-! ## Lemmas: base64 encode/decode round trip -/

theorem b64IndexOf_b64CharOf : ∀ v < 64, b64IndexOf (b64CharOf v) = some v := by decide

theorem bounded_isBase64Char : ∀ v < 64, isBase64Char (b64CharOf v) = true := by decide

theorem b64CharOf_of_ge {v : Nat} (h : 64 ≤ v) : b64CharOf v = 'A' := by
  unfold b64CharOf
  exact List.getD_eq_default _ _ (by simpa using h)

theorem isBase64Char_b64CharOf (v : Nat) : isBase64Char (b64CharOf v) = true := by
  by_cases h : v < 64
  · exact bounded_isBase64Char v h
  · rw [b64CharOf_of_ge (by omega)]; decide

theorem bounded_not_ws : ∀ v < 64, isAsciiWs (b64CharOf v) = false := by decide

theorem isAsciiWs_b64CharOf (v : Nat) : isAsciiWs (b64CharOf v) = false := by
  by_cases h : v < 64
  · exact bounded_not_ws v h
  · rw [b64CharOf_of_ge (by omega)]; decide

theorem bounded_ne_pad : ∀ v < 64, b64CharOf v ≠ '=' := by decide

theorem b64CharOf_ne_pad (v : Nat) : b64CharOf v ≠ '=' := by
  by_cases h : v < 64
  · exact bounded_ne_pad v h
  · rw [b64CharOf_of_ge (by omega)]; decide

theorem encode_not_ws : ∀ (bs : List Nat), ∀ c ∈ b64EncodeGroups bs, isAsciiWs c = false
  | [] => by simp [b64EncodeGroups]
  | [a] => by
      simp only [b64EncodeGroups, List.mem_cons, List.not_mem_nil, or_false]
      rintro c (rfl | rfl | rfl | rfl)
      · exact isAsciiWs_b64CharOf _
      · exact isAsciiWs_b64CharOf _
      · decide
      · decide
  | [a, b] => by
      simp only [b64EncodeGroups, List.mem_cons, List.not_mem_nil, or_false]
      rintro c (rfl | rfl | rfl | rfl)
      · exact isAsciiWs_b64CharOf _
      · exact isAsciiWs_b64CharOf _
      · exact isAsciiWs_b64CharOf _
      · decide
  | a :: b :: d :: rest => by
      simp only [b64EncodeGroups, List.mem_cons]
      rintro c (rfl | rfl | rfl | rfl | hmem)
      · exact isAsciiWs_b64CharOf _
      · exact isAsciiWs_b64CharOf _
      · exact isAsciiWs_b64CharOf _
      · exact isAsciiWs_b64CharOf _
      · exact encode_not_ws rest c hmem

theorem encode_ne_nil : ∀ bs : List Nat, bs ≠ [] → b64EncodeGroups bs ≠ [] := by
  intro bs h
  rcases bs with _ | ⟨a, _ | ⟨b, _ | ⟨c, rest⟩⟩⟩ <;> simp_all [b64EncodeGroups]

theorem base64RegexAccepts_encode : ∀ (bs : List Nat),
    base64RegexAccepts (b64EncodeGroups bs) = true
  | [] => rfl
  | [a] => by
      simp [b64EncodeGroups, base64RegexAccepts, isBase64Char_b64CharOf]
  | [a, b] => by
      simp [b64EncodeGroups, base64RegexAccepts, isBase64Char_b64CharOf]
  | a :: b :: d :: rest => by
      simp only [b64EncodeGroups, base64RegexAccepts, isBase64Char_b64CharOf, if_true]
      exact base64RegexAccepts_encode rest

theorem b64DecodeTail2_b64CharOf {i1 i2 : Nat} (h1 : i1 < 64) (h2 : i2 < 64) :
    b64DecodeTail2 (b64CharOf i1) (b64CharOf i2) = some [i1 * 4 + i2 / 16] := by
  simp [b64DecodeTail2, b64IndexOf_b64CharOf i1 h1, b64IndexOf_b64CharOf i2 h2]

theorem b64DecodeTail3_b64CharOf {i1 i2 i3 : Nat} (h1 : i1 < 64) (h2 : i2 < 64)
    (h3 : i3 < 64) :
    b64DecodeTail3 (b64CharOf i1) (b64CharOf i2) (b64CharOf i3) =
      some [i1 * 4 + i2 / 16, i2 % 16 * 16 + i3 / 4] := by
  simp [b64DecodeTail3, b64IndexOf_b64CharOf i1 h1, b64IndexOf_b64CharOf i2 h2,
    b64IndexOf_b64CharOf i3 h3]

theorem b64DecodeGroups_encode : ∀ (bs : List Nat), (∀ b ∈ bs, b < 256) →
    b64DecodeGroups (b64EncodeGroups bs) = some bs
  | [], _ => rfl
  | [a], hb => by
      have ha : a < 256 := hb a (by simp)
      simp only [b64EncodeGroups, b64DecodeGroups, if_true]
      rw [b64DecodeTail2_b64CharOf (by omega) (by omega)]
      have e : a / 4 * 4 + a % 4 * 16 / 16 = a := by omega
      rw [e, if_pos ⟨trivial, trivial⟩]
  | [a, b], hb => by
      have ha : a < 256 := hb a (by simp)
      have hbb : b < 256 := hb b (by simp)
      simp only [b64EncodeGroups, b64DecodeGroups, if_true]
      rw [if_neg (b64CharOf_ne_pad _),
        b64DecodeTail3_b64CharOf (by omega) (by omega) (by omega)]
      have e1 : a / 4 * 4 + (a % 4 * 16 + b / 16) / 16 = a := by omega
      have e2 : (a % 4 * 16 + b / 16) % 16 * 16 + b % 16 * 4 / 4 = b := by omega
      rw [e1, e2, if_pos ⟨trivial, trivial⟩]
  | a :: b :: d :: rest, hb => by
      have ha : a < 256 := hb a (by simp)
      have hbb : b < 256 := hb b (by simp)
      have hd : d < 256 := hb d (by simp)
      have hrest : ∀ x ∈ rest, x < 256 := fun x hx => hb x (by simp [hx])
      simp only [b64EncodeGroups, b64DecodeGroups]
      rw [if_neg (fun hcon => b64CharOf_ne_pad (d % 64) hcon.2)]
      rw [b64IndexOf_b64CharOf _ (by omega), b64IndexOf_b64CharOf _ (by omega),
        b64IndexOf_b64CharOf _ (by omega), b64IndexOf_b64CharOf _ (by omega)]
      rw [b64DecodeGroups_encode rest hrest]
      simp only [Option.some_bind, Option.bind_eq_bind, bind, Option.bind]
      have e1 : a / 4 * 4 + (a % 4 * 16 + b / 16) / 16 = a := by omega
      have e2 : (a % 4 * 16 + b / 16) % 16 * 16 + (b % 16 * 4 + d / 64) / 4 = b := by
        omega
      have e3 : (b % 16 * 4 + d / 64) % 4 * 64 + d % 64 = d := by omega
      rw [e1, e2, e3]

theorem atobFn_btoaFn (bs : List Nat) (hb : ∀ b ∈ bs, b < 256) :
    atobFn (btoaFn bs) = some bs := by
  unfold atobFn btoaFn
  rw [List.filter_eq_self.mpr (fun c hc => by simp [encode_not_ws bs c hc])]
  exact b64DecodeGroups_encode bs hb

theorem dropWhile_of_forall_false {p : Char → Bool} {s : List Char}
    (h : ∀ c ∈ s, p c = false) : s.dropWhile p = s := by
  cases s with
  | nil => rfl
  | cons c t => simp [List.dropWhile_cons, h c (by simp)]

theorem trimFn_of_no_ws {s : List Char} (h : ∀ c ∈ s, isAsciiWs c = false) :
    trimFn s = s := by
  unfold trimFn
  rw [dropWhile_of_forall_false h,
    dropWhile_of_forall_false (fun c hc => h c (List.mem_reverse.mp hc)),
    List.reverse_reverse]

theorem base64ToUint8Array_btoaFn (bs : List Nat) (hb : ∀ b ∈ bs, b < 256)
    (hne : bs ≠ []) : base64ToUint8Array (btoaFn bs) = some bs := by
  unfold base64ToUint8Array btoaFn
  rw [if_neg (encode_ne_nil bs hne), trimFn_of_no_ws (encode_not_ws bs),
    if_pos (base64RegexAccepts_encode bs)]
  exact atobFn_btoaFn bs hb

theorem chunkedJoin_id : ∀ (fuel : Nat) (bs : List Nat), bs.length ≤ fuel →
    chunkedJoin fuel bs = bs := by
  intro fuel
  induction fuel with
  | zero =>
      intro bs h
      rw [List.eq_nil_of_length_eq_zero (Nat.le_zero.mp h)]
      rfl
  | succ n ih =>
      intro bs h
      cases bs with
      | nil => rfl
      | cons a t =>
          show chunkedJoin (n + 1) (a :: t) = a :: t
          rw [show chunkedJoin (n + 1) (a :: t) =
              (a :: t).take 0x8000 ++ chunkedJoin n ((a :: t).drop 0x8000) from rfl]
          rw [ih ((a :: t).drop 0x8000) (by simp at h ⊢; omega)]
          exact List.take_append_drop _ _

theorem arrayBufferToBase64_eq (bs : List Nat) : arrayBufferToBase64 bs = btoaFn bs := by
  unfold arrayBufferToBase64
  rw [chunkedJoin_id _ _ le_rfl]

theorem base64_roundtrip (bs : List Nat) (hb : ∀ b ∈ bs, b < 256) (hne : bs ≠ []) :
    base64ToUint8Array (arrayBufferToBase64 bs) = some bs := by
  rw [arrayBufferToBase64_eq]
  exact base64ToUint8Array_btoaFn bs hb hne

/-! ## Lemmas: idealized AES-GCM -/

theorem gcmTag_length (key iv p : List Nat) : (gcmTag key iv p).length = 16 := by
  simp [gcmTag]

theorem gcmTag_lt (key iv p : List Nat) : ∀ b ∈ gcmTag key iv p, b < 256 := by
  intro b hb
  rw [gcmTag, List.mem_replicate] at hb
  rw [hb.2]
  exact Nat.mod_lt _ (by norm_num)

theorem gcmEncrypt_lt (key iv p : List Nat) (hp : ∀ b ∈ p, b < 256) :
    ∀ b ∈ gcmEncrypt key iv p, b < 256 := by
  intro b hb
  rcases List.mem_append.mp hb with h | h
  · exact hp b h
  · exact gcmTag_lt key iv p b h

theorem gcmEncrypt_ne_nil (key iv p : List Nat) : gcmEncrypt key iv p ≠ [] := by
  have : (gcmEncrypt key iv p).length = p.length + 16 := by simp [gcmEncrypt, gcmTag]
  intro h
  rw [h] at this
  simp at this

theorem gcmDecrypt_append (key iv q r : List Nat) (hr : r.length = 16) :
    gcmDecrypt key iv (q ++ r) = if r = gcmTag key iv q then some q else none := by
  unfold gcmDecrypt
  have hlen : (q ++ r).length = q.length + 16 := by simp [hr]
  rw [hlen, if_pos (by omega)]
  have hsub : q.length + 16 - 16 = q.length := by omega
  rw [hsub, List.take_left, List.drop_left]

theorem gcmDecrypt_gcmEncrypt (key iv p : List Nat) :
    gcmDecrypt key iv (gcmEncrypt key iv p) = some p := by
  rw [gcmEncrypt, gcmDecrypt_append key iv p _ (gcmTag_length key iv p), if_pos rfl]

theorem xorSum_cons (a : Nat) (l : List Nat) : xorSum (a :: l) = a ^^^ xorSum l := rfl

theorem xorSum_set (l : List Nat) (i m : Nat) (h : i < l.length) :
    xorSum (l.set i (l.getD i 0 ^^^ m)) = xorSum l ^^^ m := by
  induction l generalizing i with
  | nil => simp at h
  | cons a t ih =>
      cases i with
      | zero =>
          show xorSum ((a ^^^ m) :: t) = xorSum (a :: t) ^^^ m
          rw [xorSum_cons, xorSum_cons, Nat.xor_assoc, Nat.xor_comm m,
            ← Nat.xor_assoc]
      | succ n =>
          rw [List.getD_cons_succ, List.set_cons_succ, xorSum_cons, xorSum_cons,
            ih n (by simpa using h), Nat.xor_assoc]

theorem xor_ne_self {x m : Nat} (hm : m ≠ 0) : x ^^^ m ≠ x := by
  intro h
  apply hm
  have h2 : x ^^^ (x ^^^ m) = x ^^^ x := congrArg (x ^^^ ·) h
  rwa [← Nat.xor_assoc, Nat.xor_self, Nat.zero_xor] at h2

theorem xor_pow_mod_ne (x j : Nat) (hj : j < 8) : (x ^^^ 2 ^ j) % 256 ≠ x % 256 := by
  intro h
  have h1 : ((x ^^^ 2 ^ j) % 2 ^ 8).testBit j = (x % 2 ^ 8).testBit j := by
    rw [show (2 : Nat) ^ 8 = 256 from by norm_num, h]
  rw [Nat.testBit_mod_two_pow, Nat.testBit_mod_two_pow, Nat.testBit_xor,
    Nat.testBit_two_pow_self] at h1
  have hd : decide (j < 8) = true := decide_eq_true hj
  simp only [hd, Bool.true_and] at h1
  cases hx : x.testBit j <;> simp [hx] at h1

theorem replicate_ne_of_ne {α : Type} {a b : α} (n : Nat) (hn : n ≠ 0) (h : a ≠ b) :
    List.replicate n a ≠ List.replicate n b := by
  cases n with
  | zero => exact absurd rfl hn
  | succ m =>
      intro heq
      rw [List.replicate_succ, List.replicate_succ] at heq
      injection heq with h1 _
      exact h h1

theorem gcmDecrypt_flip (key iv p : List Nat) (i j : Nat)
    (hi : i < (gcmEncrypt key iv p).length) (hj : j < 8) :
    gcmDecrypt key iv (flipBit (gcmEncrypt key iv p) i j) = none := by
  have h2j : (2 : Nat) ^ j ≠ 0 := by positivity
  rw [gcmEncrypt] at hi
  simp only [List.length_append, gcmTag_length] at hi
  rw [gcmEncrypt]
  unfold flipBit
  by_cases hip : i < p.length
  · -- the flip lands in the ciphertext body
    rw [List.getD_append _ _ _ _ hip, List.set_append, if_pos hip]
    rw [gcmDecrypt_append key iv _ _ (gcmTag_length key iv p)]
    have hx : xorSum (p.set i (p.getD i 0 ^^^ 2 ^ j)) = xorSum p ^^^ 2 ^ j :=
      xorSum_set p i _ hip
    have hv : (xorSum key ^^^ xorSum iv ^^^ xorSum p) % 256 ≠
        (xorSum key ^^^ xorSum iv ^^^ xorSum (p.set i (p.getD i 0 ^^^ 2 ^ j))) % 256 := by
      rw [hx, ← Nat.xor_assoc]
      exact Ne.symm (xor_pow_mod_ne _ j hj)
    exact if_neg (replicate_ne_of_ne 16 (by norm_num) hv)
  · -- the flip lands in the authentication tag
    have hip' : p.length ≤ i := by omega
    have hidx : i - p.length < 16 := by omega
    rw [List.getD_append_right _ _ _ _ hip', List.set_append, if_neg (by omega)]
    have hval : (gcmTag key iv p).getD (i - p.length) 0 =
        (xorSum key ^^^ xorSum iv ^^^ xorSum p) % 256 := by
      rw [gcmTag, List.getD_eq_getElem?_getD, List.getElem?_replicate, if_pos hidx]
      rfl
    rw [hval]
    rw [gcmDecrypt_append key iv _ _ (by rw [List.length_set]; exact gcmTag_length key iv p)]
    rw [if_neg]
    intro heq
    have e1 := congrArg (fun l => l.getD (i - p.length) 0) heq
    simp only at e1
    rw [List.getD_eq_getElem?_getD,
      List.getElem?_set_self (by rw [gcmTag_length]; omega), hval] at e1
    exact xor_ne_self h2j e1

/-! ## Lemmas: key derivation -/

theorem pbkdf2Sha256_inj {p p' s s' : List Nat} {it : Nat}
    (h : pbkdf2Sha256 p s it = pbkdf2Sha256 p' s' it) : p = p' ∧ s = s' := by
  unfold pbkdf2Sha256 at h
  injection h with hlen happ
  have h2 : (p ++ s) ++ [it] = (p' ++ s') ++ [it] := by
    simpa [List.append_assoc] using happ
  have h3 : p ++ s = p' ++ s' := List.append_cancel_right h2
  obtain ⟨hp, hs⟩ := List.append_inj h3 hlen
  exact ⟨hp, hs⟩

theorem textEncode_inj {s t : String} (h : textEncode s = textEncode t) : s = t := by
  unfold textEncode at h
  have hchar : Function.Injective Char.toNat := by
    intro c d hcd
    have h2 := congrArg Char.ofNat hcd
    rwa [Char.ofNat_toNat, Char.ofNat_toNat] at h2
  exact String.toList_inj.mp (List.map_injective_iff.mpr hchar h)

/-! ## Lemmas: the upload loop -/

theorem uploadFiles_attempted_take (upload : UploadItem → Except String Unit)
    (cancelled : Nat → Bool) :
    ∀ (files : List UploadItem) (i : Nat),
      ∃ k, (uploadFiles upload cancelled i files).attempted = files.take k := by
  intro files
  induction files with
  | nil => exact fun i => ⟨0, rfl⟩
  | cons f rest ih =>
      intro i
      by_cases hc : cancelled i
      · exact ⟨0, by simp [uploadFiles, hc]⟩
      · obtain ⟨k, hk⟩ := ih (i + 1)
        refine ⟨k + 1, ?_⟩
        cases hup : upload f <;>
          simp [uploadFiles, hc, hup, List.take_succ_cons, hk]

theorem uploadFiles_attempted_congr (upload upload' : UploadItem → Except String Unit)
    (cancelled : Nat → Bool) :
    ∀ (files : List UploadItem) (i : Nat),
      (uploadFiles upload cancelled i files).attempted =
        (uploadFiles upload' cancelled i files).attempted := by
  intro files
  induction files with
  | nil => exact fun i => rfl
  | cons f rest ih =>
      intro i
      by_cases hc : cancelled i
      · simp [uploadFiles, hc]
      · cases hup : upload f <;> cases hup' : upload' f <;>
          simp [uploadFiles, hc, hup, hup', ih (i + 1)]

theorem uploadFiles_attempted_all (upload : UploadItem → Except String Unit)
    (cancelled : Nat → Bool) (hnc : ∀ n, cancelled n = false) :
    ∀ (files : List UploadItem) (i : Nat),
      (uploadFiles upload cancelled i files).attempted = files := by
  intro files
  induction files with
  | nil => exact fun i => rfl
  | cons f rest ih =>
      intro i
      cases hup : upload f <;>
        simp [uploadFiles, hnc i, hup, ih (i + 1)]

theorem uploadFiles_errors_eq (upload : UploadItem → Except String Unit)
    (cancelled : Nat → Bool) :
    ∀ (files : List UploadItem) (i : Nat),
      (uploadFiles upload cancelled i files).errors =
        (uploadFiles upload cancelled i files).attempted.filterMap
          (fun f => match upload f with
            | Except.error e => some (f.name ++ ": " ++ e)
            | Except.ok _ => none) := by
  intro files
  induction files with
  | nil => exact fun i => rfl
  | cons f rest ih =>
      intro i
      by_cases hc : cancelled i
      · simp [uploadFiles, hc]
      · cases hup : upload f <;>
          simp [uploadFiles, hc, hup, ih (i + 1), List.filterMap_cons]

theorem uploadFiles_count_eq (upload : UploadItem → Except String Unit)
    (cancelled : Nat → Bool) :
    ∀ (files : List UploadItem) (i : Nat),
      (uploadFiles upload cancelled i files).uploadedCount =
        ((uploadFiles upload cancelled i files).attempted.filter
          (fun f => match upload f with
            | Except.ok _ => true
            | Except.error _ => false)).length := by
  intro files
  induction files with
  | nil => exact fun i => rfl
  | cons f rest ih =>
      intro i
      by_cases hc : cancelled i
      · simp [uploadFiles, hc]
      · cases hup : upload f <;>
          simp [uploadFiles, hc, hup, ih (i + 1), List.filter_cons]

/-! ## Claim theorems -/

/-- C1: for every file contents, filename, MIME type and master key (and for
the file key and the two 12-byte IVs the source draws from the RNG),
decryptFile applied with the same master key to the four base64 fields
produced by encryptFile returns exactly the original bytes, the supplied
filename and the supplied MIME type. -/
theorem encryptFile_decryptFile_roundtrip
    (fileData masterKey fileKey fileIV keyIV : List Nat) (filename mimeType : String)
    (hdata : ∀ b ∈ fileData, b < 256)
    (hkey : ∀ b ∈ fileKey, b < 256) (_hkeyLen : fileKey.length = 32)
    (hiv : ∀ b ∈ fileIV, b < 256) (hivLen : fileIV.length = 12)
    (hkiv : ∀ b ∈ keyIV, b < 256) (hkivLen : keyIV.length = 12) :
    decryptFile (encryptFile fileData masterKey fileKey fileIV keyIV) masterKey
        filename mimeType =
      some { data := fileData, filename := filename, mimeType := mimeType } := by
  have hivne : fileIV ≠ [] := by intro h; rw [h] at hivLen; simp at hivLen
  have hkivne : keyIV ≠ [] := by intro h; rw [h] at hkivLen; simp at hkivLen
  have h1 := base64_roundtrip (gcmEncrypt masterKey keyIV fileKey)
    (gcmEncrypt_lt _ _ _ hkey) (gcmEncrypt_ne_nil _ _ _)
  have h2 := base64_roundtrip keyIV hkiv hkivne
  have h3 := base64_roundtrip (gcmEncrypt fileKey fileIV fileData)
    (gcmEncrypt_lt _ _ _ hdata) (gcmEncrypt_ne_nil _ _ _)
  have h4 := base64_roundtrip fileIV hiv hivne
  simp only [decryptFile, encryptFile, h1, h2, h3, h4, Option.bind_eq_bind,
    Option.some_bind, gcmDecrypt_gcmEncrypt]

/-- Witness for C1: the end-to-end scenario of the spec, the bytes of
"hello world" with filename a.txt and MIME type text/plain. -/
theorem encryptFile_decryptFile_roundtrip_witness :
    decryptFile
        (encryptFile [104, 101, 108, 108, 111, 32, 119, 111, 114, 108, 100] [9, 9]
          (List.replicate 32 5) (List.replicate 12 3) (List.replicate 12 4))
        [9, 9] "a.txt" "text/plain" =
      some { data := [104, 101, 108, 108, 111, 32, 119, 111, 114, 108, 100],
             filename := "a.txt", mimeType := "text/plain" } :=
  encryptFile_decryptFile_roundtrip _ _ _ _ _ _ _ (by decide) (by decide) (by decide)
    (by decide) (by decide) (by decide) (by decide)

/-- C2: whenever any step of the decryptMetadata pipeline fails (empty
input, invalid base64, authentication failure of the AES-GCM decrypt with
the 12-byte nonce split off the blob, or malformed serialized metadata),
decryptMetadata returns the fixed default record instead of propagating the
error; by its return type it always produces a record. -/
theorem decryptMetadata_failure_defaults (s : List Char) (key : List Nat) :
    decryptMetadata [] key = defaultMetadata ∧
      (atobFn s = none → decryptMetadata s key = defaultMetadata) ∧
      (∀ combined, atobFn s = some combined →
        gcmDecrypt key (combined.take 12) (combined.drop 12) = none →
        decryptMetadata s key = defaultMetadata) ∧
      (∀ combined buf, atobFn s = some combined →
        gcmDecrypt key (combined.take 12) (combined.drop 12) = some buf →
        parseMetadataJson buf = none →
        decryptMetadata s key = defaultMetadata) := by
  refine ⟨rfl, ?_, ?_, ?_⟩
  · intro h
    by_cases hs : s = []
    · subst hs; rfl
    · simp [decryptMetadata, decryptMetadataTry, hs, h]
  · intro combined hatob hgcm
    by_cases hs : s = []
    · subst hs; rfl
    · simp [decryptMetadata, decryptMetadataTry, hs, hatob, hgcm]
  · intro combined buf hatob hgcm hparse
    by_cases hs : s = []
    · subst hs; rfl
    · simp [decryptMetadata, decryptMetadataTry, hs, hatob, hgcm, hparse]

/-- Witness for C2: an input that is not valid base64 yields the default
record. -/
theorem decryptMetadata_failure_defaults_witness :
    decryptMetadata ['*'] [3] = defaultMetadata :=
  (decryptMetadata_failure_defaults ['*'] [3]).2.1 rfl

/-- C3: storing a master key in the vault under a session secret and
retrieving it with the same userId and secret returns exactly the stored
key bytes (salt and IV are the fresh 16- and 12-byte random values the
source draws). -/
theorem storeMasterKey_retrieveMasterKey_roundtrip
    (db : VaultDB) (userId : String) (masterKey : List Nat) (sessionPassword : String)
    (salt iv : List Nat)
    (hsaltLen : salt.length = 16) (hsaltB : ∀ b ∈ salt, b < 256)
    (hivLen : iv.length = 12) (hivB : ∀ b ∈ iv, b < 256)
    (hkeyB : ∀ b ∈ masterKey, b < 256) :
    retrieveMasterKey (storeMasterKey db userId masterKey sessionPassword salt iv)
        userId sessionPassword = Except.ok masterKey := by
  set sk := pbkdf2Sha256 (textEncode sessionPassword) salt 100000 with hsk
  have hcomb : ∀ b ∈ salt ++ iv ++ gcmEncrypt sk iv masterKey, b < 256 := by
    intro b hb
    rcases List.mem_append.mp hb with hb | hb
    · rcases List.mem_append.mp hb with hb | hb
      · exact hsaltB b hb
      · exact hivB b hb
    · exact gcmEncrypt_lt _ _ _ hkeyB b hb
  have hdb : storeMasterKey db userId masterKey sessionPassword salt iv userId =
      some { userId := userId,
             encryptedKey := btoaFn (salt ++ iv ++ gcmEncrypt sk iv masterKey),
             iv := btoaFn iv, createdAt := 0 } := by
    unfold storeMasterKey
    simp [hsk]
  have e1 : (salt ++ iv ++ gcmEncrypt sk iv masterKey).take 16 = salt := by
    rw [List.append_assoc]
    exact List.take_left' hsaltLen
  have e2 : ((salt ++ iv ++ gcmEncrypt sk iv masterKey).drop 16).take 12 = iv := by
    rw [List.append_assoc, List.drop_left' hsaltLen]
    exact List.take_left' hivLen
  have e3 : (salt ++ iv ++ gcmEncrypt sk iv masterKey).drop 28 =
      gcmEncrypt sk iv masterKey := by
    rw [List.append_assoc, show (28 : Nat) = 16 + 12 from rfl, ← List.drop_drop,
      List.drop_left' hsaltLen, List.drop_left' hivLen]
  unfold retrieveMasterKey retrieveMasterKeyTry
  rw [hdb]
  simp only [Option.bind_eq_bind, Option.some_bind, atobFn_btoaFn _ hcomb, e1, e2, e3,
    ← hsk, gcmDecrypt_gcmEncrypt]

/-- Witness for C3: a concrete store/retrieve round trip. -/
theorem storeMasterKey_retrieveMasterKey_roundtrip_witness :
    retrieveMasterKey
        (storeMasterKey (fun _ => none) "alice" (List.replicate 32 9) "s"
          (List.replicate 16 1) (List.replicate 12 2)) "alice" "s" =
      Except.ok (List.replicate 32 9) :=
  storeMasterKey_retrieveMasterKey_roundtrip _ _ _ _ _ _ (by decide) (by decide)
    (by decide) (by decide) (by decide)

/-- C4 (code evaluation): the missing-vault-entry case and the
wrong-session-secret case produce the one identical generic error value, so
the two conditions are not distinguishable by the caller: the inner
Master-key-not-found throw and the AES-GCM unwrap failure are both
swallowed by the catch, which rethrows the single generic message. -/
theorem retrieveMasterKey_error_collapse :
    retrieveMasterKey (fun _ => none) "alice" "correct" =
        Except.error "Failed to retrieve master key" ∧
      retrieveMasterKey
          (storeMasterKey (fun _ => none) "alice" (List.replicate 32 7) "correct"
            (List.replicate 16 1) (List.replicate 12 2)) "alice" "wrong" =
        Except.error "Failed to retrieve master key" ∧
      retrieveMasterKey (fun _ => none) "alice" "correct" =
        retrieveMasterKey
          (storeMasterKey (fun _ => none) "alice" (List.replicate 32 7) "correct"
            (List.replicate 16 1) (List.replicate 12 2)) "alice" "wrong" := by
  refine ⟨rfl, ?_, ?_⟩ <;> rfl

/-- C5 (amended): the encode/decode round trip holds for every nonempty
byte buffer; the empty buffer is the one exception, since it encodes to the
empty string, which base64ToUint8Array rejects as a falsy input. -/
theorem base64_roundtrip_nonempty (B : List Nat) (hb : ∀ b ∈ B, b < 256)
    (hne : B ≠ []) : base64ToUint8Array (arrayBufferToBase64 B) = some B :=
  base64_roundtrip B hb hne

/-- Counterexample for C5 as stated: at the empty buffer the round trip
does not return the buffer, because base64ToUint8Array throws on the empty
string produced by arrayBufferToBase64. -/
theorem base64_roundtrip_empty_fails :
    base64ToUint8Array (arrayBufferToBase64 []) = none ∧
      base64ToUint8Array (arrayBufferToBase64 []) ≠ some [] := by
  exact ⟨rfl, by decide⟩

/-- Witness for C5: a concrete nonempty buffer round trips. -/
theorem base64_roundtrip_nonempty_witness :
    base64ToUint8Array (arrayBufferToBase64 [0, 1, 2, 255]) = some [0, 1, 2, 255] :=
  base64_roundtrip_nonempty _ (by decide) (by decide)

/-- C6: flipping any single bit of a ciphertext-with-tag obtained from
encryptChunk makes decryptChunk (the same AES-GCM decrypt operation used by
the decryptFile path) fail with an error; it never returns altered or
partial plaintext. -/
theorem decryptChunk_tamper_fails (chunk key iv : List Nat) (i j : Nat)
    (hi : i < (encryptChunk chunk key iv).length) (hj : j < 8) :
    decryptChunk (flipBit (encryptChunk chunk key iv) i j) key iv = none :=
  gcmDecrypt_flip key iv chunk i j hi hj

/-- Witness for C6: a concrete single-bit flip is rejected. -/
theorem decryptChunk_tamper_fails_witness :
    0 < (encryptChunk [10, 20] [1, 2, 3] (List.replicate 12 0)).length ∧ 0 < 8 ∧
      decryptChunk (flipBit (encryptChunk [10, 20] [1, 2, 3] (List.replicate 12 0)) 0 0)
        [1, 2, 3] (List.replicate 12 0) = none :=
  ⟨by decide, by decide,
    decryptChunk_tamper_fails [10, 20] [1, 2, 3] (List.replicate 12 0) 0 0
      (by decide) (by decide)⟩

/-- C7 (amended): deriveKeyFromPassword derives the key with PBKDF2 at
100000 iterations of SHA-256 from the decoded salt bytes, deterministically;
it fails exactly when the salt string is not valid base64; changing the
password changes the output, and changing the salt changes the output
whenever the two salt strings decode to different byte sequences (distinct
salt strings can decode to identical bytes, for which see the
counterexample). -/
theorem deriveKeyFromPassword_spec (password : String) (salt : List Char) :
    ((deriveKeyFromPassword password salt) = none ↔ atobFn salt = none) ∧
      (∀ sb, atobFn salt = some sb →
        deriveKeyFromPassword password salt =
          some (pbkdf2Sha256 (textEncode password) sb 100000)) ∧
      (∀ password' k k', deriveKeyFromPassword password salt = some k →
        deriveKeyFromPassword password' salt = some k' → password ≠ password' →
        k ≠ k') ∧
      (∀ salt' sb sb', atobFn salt = some sb → atobFn salt' = some sb' → sb ≠ sb' →
        deriveKeyFromPassword password salt ≠ deriveKeyFromPassword password salt') := by
  refine ⟨?_, ?_, ?_, ?_⟩
  · unfold deriveKeyFromPassword
    cases h : atobFn salt <;> simp [h]
  · intro sb h
    simp [deriveKeyFromPassword, h]
  · intro password' k k' hk hk' hne
    cases hsalt : atobFn salt with
    | none => rw [deriveKeyFromPassword, hsalt] at hk; simp at hk
    | some sb =>
        rw [deriveKeyFromPassword, hsalt] at hk hk'
        simp only [Option.map_some', Option.some.injEq] at hk hk'
        intro hkk
        apply hne
        apply textEncode_inj
        exact (pbkdf2Sha256_inj (by rw [hk, hk', hkk])).1
  · intro salt' sb sb' h h' hne
    rw [deriveKeyFromPassword, deriveKeyFromPassword, h, h']
    simp only [Option.map_some', ne_eq, Option.some.injEq]
    intro heq
    exact hne (pbkdf2Sha256_inj heq).2

/-- Counterexample for C7 as stated: two different salt strings (one with a
leading space, which the forgiving base64 decode of atob strips) decode to
the same byte and therefore derive the identical key, so changing the salt
input does not always change the output. -/
theorem deriveKeyFromPassword_salt_collision :
    deriveKeyFromPassword "pw" [' ', 'Q', 'Q', '=', '='] =
        deriveKeyFromPassword "pw" ['Q', 'Q', '=', '='] ∧
      ([' ', 'Q', 'Q', '=', '='] : List Char) ≠ ['Q', 'Q', '=', '='] ∧
      (deriveKeyFromPassword "pw" ['Q', 'Q', '=', '=']).isSome = true := by
  refine ⟨rfl, by decide, rfl⟩

/-- Witness for C7: the amended theorem applied at a valid salt. -/
theorem deriveKeyFromPassword_spec_witness :
    deriveKeyFromPassword "pw" ['Q', 'Q', '=', '='] =
      some (pbkdf2Sha256 (textEncode "pw") [65] 100000) :=
  (deriveKeyFromPassword_spec "pw" ['Q', 'Q', '=', '=']).2.1 [65] rfl

/-- C8: hashPassword returns the base64 of the single SHA-256 digest of
password ++ salt (of the password alone without a salt), truncated to the
first 43 base64 characters, so its length never exceeds 43. -/
theorem hashPassword_spec (password : String) :
    (∀ s, hashPassword password (some s) =
        (btoaFn (sha256Digest (textEncode (password ++ s)))).take 43) ∧
      hashPassword password none =
        (btoaFn (sha256Digest (textEncode password))).take 43 ∧
      ∀ salt, (hashPassword password salt).length ≤ 43 := by
  refine ⟨fun s => rfl, rfl, fun salt => ?_⟩
  cases salt with
  | none =>
      rw [hashPassword, List.length_take]
      exact inf_le_left
  | some s =>
      rw [hashPassword, List.length_take]
      exact inf_le_left

/-- C9: the upload loop attempts a prefix of the caller-supplied list in
order; which prefix is attempted depends only on the cancellation flag
checks between items, not on upload failures; without cancellation every
item is attempted even after failures; each failing item contributes its
formatted error, in order; and the success count is the number of attempted
items whose upload succeeded, so items completed before a later
cancellation stay committed. -/
theorem uploadFiles_sequential_spec (upload : UploadItem → Except String Unit)
    (cancelled : Nat → Bool) (files : List UploadItem) :
    (∃ k, (uploadFiles upload cancelled 0 files).attempted = files.take k) ∧
      (∀ upload', (uploadFiles upload cancelled 0 files).attempted =
        (uploadFiles upload' cancelled 0 files).attempted) ∧
      ((∀ n, cancelled n = false) →
        (uploadFiles upload cancelled 0 files).attempted = files) ∧
      (uploadFiles upload cancelled 0 files).errors =
        (uploadFiles upload cancelled 0 files).attempted.filterMap
          (fun f => match upload f with
            | Except.error e => some (f.name ++ ": " ++ e)
            | Except.ok _ => none) ∧
      (uploadFiles upload cancelled 0 files).uploadedCount =
        ((uploadFiles upload cancelled 0 files).attempted.filter
          (fun f => match upload f with
            | Except.ok _ => true
            | Except.error _ => false)).length :=
  ⟨uploadFiles_attempted_take upload cancelled files 0,
   fun upload' => uploadFiles_attempted_congr upload upload' cancelled files 0,
   fun hnc => uploadFiles_attempted_all upload cancelled hnc files 0,
   uploadFiles_errors_eq upload cancelled files 0,
   uploadFiles_count_eq upload cancelled files 0⟩

/-- Witness for C9: without cancellation, a batch with a failing middle
item still attempts every item. -/
theorem uploadFiles_sequential_spec_witness :
    (uploadFiles (fun f => if f.name = "b" then Except.error "boom" else Except.ok ())
        (fun _ => false) 0 [⟨"a"⟩, ⟨"b"⟩, ⟨"c"⟩]).attempted =
      [⟨"a"⟩, ⟨"b"⟩, ⟨"c"⟩] :=
  (uploadFiles_sequential_spec _ _ _).2.2.1 (fun _ => rfl)

/-- C10: decryptFilename has no fallback: an input that is not valid base64,
or whose ciphertext fails AES-GCM authentication under the supplied master
key, makes it propagate the error to the caller instead of returning any
placeholder value. -/
theorem decryptFilename_propagates (s : List Char) (key : List Nat) :
    (atobFn s = none → decryptFilename s key = none) ∧
      (∀ combined, atobFn s = some combined →
        gcmDecrypt key (combined.take 12) (combined.drop 12) = none →
        decryptFilename s key = none) := by
  constructor
  · intro h
    simp [decryptFilename, h]
  · intro combined hatob hgcm
    simp [decryptFilename, hatob, hgcm]

/-- Witness for C10: a non-base64 input propagates the failure. -/
theorem decryptFilename_propagates_witness :
    decryptFilename ['!'] [2] = none :=
  (decryptFilename_propagates ['!'] [2]).1 rfl

end EncFiles
